import Mathlib

/-!
Quiz room of `server/main.go`.

A shallow embedding of the shared `Room` and of the data-channel handlers of
`handleWS` (`pc.OnDataChannel`, `dc.OnOpen`, `dc.OnMessage`) together with the
helpers `sendQuestion` and `sendResult`.

Modelling conventions.

* Go `int` is the 64-bit signed integer: values are `Int`, and the results of the
  arithmetic of the program, `Score += 10`, `Current++` and `Current + 1`, are
  wrapped by `wrapInt`.  The length of the question bank is that of a Go slice
  (field `fits` of `Room`).
* `map[string]*Player` is a function `String → Option Player`; `none` is the nil
  pointer a missing key yields, and dereferencing it is the fault
  `Fault.nilDereference`.  The program registers the handlers of a player only
  after it has stored the player, and never deletes one.
* A handler is a function from an execution state (the room and the trace of
  actions performed so far) to an outcome: either it returns, or it panics; in
  both cases the outcome carries the state reached.  Handlers run one after the
  other; interleavings of their actions are not modelled.
* Every access to `room.Current`, to a `Score`, to `room.Questions`, every
  `Lock`/`Unlock` and every `SendText` is recorded in the trace, in program order.
* `json.Marshal` of the payload maps is not modelled: a marshalled message is
  represented by the fields of the map that is marshalled.  `log.Println` calls
  are omitted.  The value of `time.Since(questionStart).Milliseconds()` is an
  input of the message handler.
-/

namespace Quiz

/-! ## Data model -/

/-- The struct `AnswerPayload` (field `Type` is spelled `Typ`). -/
structure AnswerPayload where
  Typ : String
  ID : Int
  Answer : Int
  Time : Int
  deriving DecidableEq, Repr

/-- The struct `Question`. -/
structure Question where
  ID : Int
  Text : String
  Options : List String
  Answer : Int
  Duration : Int
  deriving DecidableEq, Repr

/-- The struct `Player`; the data channel is identified by a handle. -/
structure Player where
  DC : Nat
  Score : Int
  deriving DecidableEq, Repr

/-- The largest Go `int` (64 bits). -/
def maxInt : Int := 9223372036854775807

/-- The smallest Go `int` (64 bits). -/
def minInt : Int := -9223372036854775808

/-- Go `int` arithmetic: the result of an operation, wrapped to 64 bits in two's
complement. -/
def wrapInt (x : Int) : Int :=
  (x + 9223372036854775808) % 18446744073709551616 - 9223372036854775808

/-- The struct `Room` without its mutex, whose use is recorded in the trace.  The
field `fits` records that `Questions` is a Go slice: its backing array, of 64 bytes
per `Question`, has a size that is an `int`. -/
structure Room where
  Players : String → Option Player
  Questions : List Question
  Current : Int
  fits : 64 * (Questions.length : Int) ≤ maxInt

/-- The global `room`: no players, the three static questions, `Current` zero. -/
def room : Room where
  Players := fun _ => none
  Questions :=
    [ ⟨1, "Apa kepanjangan CPU?",
        ["Central Processing Unit", "Computer Personal Unit", "Control Processing Unit"], 0, 10⟩,
      ⟨2, "Apa fungsi RAM?",
        ["Penyimpanan sementara", "Penyimpanan permanen", "CPU processing"], 0, 10⟩,
      ⟨3, "OS singkatan dari?",
        ["Operating System", "Open Software", "Optimal System"], 0, 10⟩ ]
  Current := 0
  fits := by decide

/-! ## Messages, actions, outcomes -/

/-- What is handed to `dc.SendText`: a literal text, or the marshalled map of
`sendQuestion` or of `sendResult`, given by its fields. -/
inductive Message where
  | raw (text : String)
  | question (id : Int) (question : String) (options : List String) (duration : Int)
      (progressCurrent : Int) (progressTotal : Int)
  | result (score : Int) (time : Int)
  deriving DecidableEq, Repr

/-- The literal text sent when the quiz is over. -/
def endText : String := "\x7b\"type\":\"end\"\x7d"

/-- The observable actions of a handler. -/
inductive Action where
  | lock
  | unlock
  | readCurrent
  | writeCurrent (v : Int)
  | readScore (id : String)
  | writeScore (id : String) (v : Int)
  | lenQuestions
  | indexQuestions (i : Int)
  | insertPlayer (id : String) (dc : Nat)
  | send (dc : Nat) (m : Message)
  | sleep (ms : Nat)
  deriving DecidableEq, Repr

/-- The two run-time panics the handlers can raise. -/
inductive Fault where
  | indexOutOfRange
  | nilDereference
  deriving DecidableEq, Repr

/-- Execution state: the room and the actions performed so far. -/
structure Exec where
  room : Room
  trace : List Action

/-- Outcome of running a handler: a normal return or a panic, each with the
state reached. -/
inductive Outcome (α : Type) where
  | ok (a : α) (s : Exec)
  | fault (e : Fault) (s : Exec)

/-- A handler of the program. -/
def Handler (α : Type) : Type := Exec → Outcome α

/-- Sequencing: a panic stops the handler. -/
def Handler.bind {α β : Type} (h : Handler α) (f : α → Handler β) : Handler β :=
  fun s =>
    match h s with
    | .ok a s' => f a s'
    | .fault e s' => .fault e s'

instance : Monad Handler where
  pure a := fun s => .ok a s
  bind h f := Handler.bind h f

/-- The state an outcome carries. -/
def Outcome.exec {α : Type} : Outcome α → Exec
  | .ok _ s => s
  | .fault _ s => s

/-- The room an outcome carries. -/
def Outcome.room {α : Type} (o : Outcome α) : Room := o.exec.room

/-- The trace an outcome carries. -/
def Outcome.trace {α : Type} (o : Outcome α) : List Action := o.exec.trace

/-- Whether the handler returned. -/
def Outcome.isOk {α : Type} : Outcome α → Bool
  | .ok _ _ => true
  | .fault _ _ => false

/-- The panic of an outcome, if any. -/
def Outcome.panicked {α : Type} : Outcome α → Option Fault
  | .ok _ _ => none
  | .fault e _ => some e

/-! ## Primitive operations -/

/-- Record an action. -/
def emit (a : Action) : Handler Unit :=
  fun s => .ok () ⟨s.room, s.trace ++ [a]⟩

/-- The call `room.Lock()`. -/
def lock : Handler Unit := emit .lock

/-- The call `room.Unlock()`. -/
def unlock : Handler Unit := emit .unlock

/-- A read of `room.Current`. -/
def getCurrent : Handler Int :=
  fun s => .ok s.room.Current ⟨s.room, s.trace ++ [.readCurrent]⟩

/-- A write of `room.Current`. -/
def setCurrent (v : Int) : Handler Unit :=
  fun s =>
    .ok () ⟨⟨s.room.Players, s.room.Questions, v, s.room.fits⟩,
      s.trace ++ [.writeCurrent v]⟩

/-- The expression `len(room.Questions)`. -/
def lenQuestions : Handler Int :=
  fun s => .ok (s.room.Questions.length : Int) ⟨s.room, s.trace ++ [.lenQuestions]⟩

/-- The expression `room.Questions[i]`: panics unless `0 ≤ i < len`. -/
def indexQuestions (i : Int) : Handler Question :=
  fun s =>
    let s' : Exec := ⟨s.room, s.trace ++ [.indexQuestions i]⟩
    if i < 0 then .fault .indexOutOfRange s'
    else
      match s.room.Questions[i.toNat]? with
      | some q => .ok q s'
      | none => .fault .indexOutOfRange s'

/-- A read of `room.Players[id].Score`: panics on the nil pointer of a missing key. -/
def getScore (id : String) : Handler Int :=
  fun s =>
    match s.room.Players id with
    | some pl => .ok pl.Score ⟨s.room, s.trace ++ [.readScore id]⟩
    | none => .fault .nilDereference s

/-- A write of `room.Players[id].Score`: panics on the nil pointer of a missing key. -/
def setScore (id : String) (v : Int) : Handler Unit :=
  fun s =>
    match s.room.Players id with
    | some pl =>
      .ok () ⟨⟨Function.update s.room.Players id (some ⟨pl.DC, v⟩), s.room.Questions,
        s.room.Current, s.room.fits⟩, s.trace ++ [.writeScore id v]⟩
    | none => .fault .nilDereference s

/-- The assignment `room.Players[id] = &Player{DC: dc}`. -/
def insertPlayer (id : String) (dc : Nat) : Handler Unit :=
  fun s =>
    .ok () ⟨⟨Function.update s.room.Players id (some ⟨dc, 0⟩), s.room.Questions,
      s.room.Current, s.room.fits⟩, s.trace ++ [.insertPlayer id dc]⟩

/-- The call `dc.SendText(m)`. -/
def sendText (dc : Nat) (m : Message) : Handler Unit := emit (.send dc m)

/-- The call `time.Sleep`, in milliseconds. -/
def sleep (ms : Nat) : Handler Unit := emit (.sleep ms)

/-- The statement `defer room.Unlock()`: the unlock runs when the body returns
and also when it panics. -/
def deferUnlock {α : Type} (body : Handler α) : Handler α :=
  fun s =>
    match body s with
    | .ok a s' => .ok a ⟨s'.room, s'.trace ++ [.unlock]⟩
    | .fault e s' => .fault e ⟨s'.room, s'.trace ++ [.unlock]⟩

/-! ## The handlers -/

/-- The function `sendQuestion`. -/
def sendQuestion (dc : Nat) : Handler Unit := do
  lock
  deferUnlock do
    let cur ← getCurrent
    let n ← lenQuestions
    if cur ≥ n then
      sendText dc (.raw endText)
    else
      let i ← getCurrent
      let q ← indexQuestions i
      let c ← getCurrent
      let total ← lenQuestions
      sendText dc (.question q.ID q.Text q.Options q.Duration (wrapInt (c + 1)) total)

/-- The function `sendResult`. -/
def sendResult (dc : Nat) (score : Int) (time : Int) : Handler Unit :=
  sendText dc (.result score time)

/-- The body of the `pc.OnDataChannel` callback up to the registration of the
two channel handlers. -/
def onDataChannel (playerID : String) (dc : Nat) : Handler Unit := do
  lock
  insertPlayer playerID dc
  unlock

/-- The `dc.OnOpen` callback. -/
def onOpen (playerID : String) (dc : Nat) : Handler Unit := do
  setCurrent 0
  setScore playerID 0
  sendQuestion dc

/-- The `dc.OnMessage` callback; `ans` is the payload after `json.Unmarshal`,
`elapsed` the value of `time.Since(questionStart).Milliseconds()`. -/
def onMessage (playerID : String) (dc : Nat) (ans : AnswerPayload) (elapsed : Int) :
    Handler Unit := do
  lock
  let i ← getCurrent
  let q ← indexQuestions i
  if ans.Answer = q.Answer then
    let old ← getScore playerID
    setScore playerID (wrapInt (old + 10))
  let score ← getScore playerID
  let c ← getCurrent
  setCurrent (wrapInt (c + 1))
  unlock
  sendResult dc score elapsed
  sleep 500
  sendQuestion dc

/-- Run a handler on a room, starting from the empty trace. -/
def exec {α : Type} (h : Handler α) (r : Room) : Outcome α := h ⟨r, []⟩

/-! ## Events -/

/-- The events the peer connection delivers. -/
inductive Event where
  | dataChannel (playerID : String) (dc : Nat)
  | opened (playerID : String) (dc : Nat)
  | message (playerID : String) (dc : Nat) (ans : AnswerPayload) (elapsed : Int)
  deriving DecidableEq, Repr

/-- The handler of an event. -/
def handle : Event → Handler Unit
  | .dataChannel p dc => onDataChannel p dc
  | .opened p dc => onOpen p dc
  | .message p dc ans elapsed => onMessage p dc ans elapsed

/-- Handle a sequence of events one after the other; a panic ends the process. -/
def runEvents : List Event → Handler Unit
  | [] => pure ()
  | e :: es => do
    handle e
    runEvents es

/-- Whether an event is an answer message. -/
def Event.isMessage : Event → Bool
  | .message _ _ _ _ => true
  | _ => false

/-! ## Observations on traces -/

/-- The messages sent, with their channel, in order. -/
def sent : List Action → List (Nat × Message)
  | [] => []
  | .send dc m :: t => (dc, m) :: sent t
  | _ :: t => sent t

/-- The indices at which the question bank was indexed, in order. -/
def indexed : List Action → List Int
  | [] => []
  | .indexQuestions i :: t => i :: indexed t
  | _ :: t => indexed t

/-- Lock discipline on the room state: starting with the lock held or not
(`held`), every read or write of `Current` or of a `Score` in the trace happens
while the lock is held. -/
def accessesLocked : Bool → List Action → Bool
  | _, [] => true
  | _, .lock :: t => accessesLocked true t
  | _, .unlock :: t => accessesLocked false t
  | held, .readCurrent :: t => held && accessesLocked held t
  | held, .writeCurrent _ :: t => held && accessesLocked held t
  | held, .readScore _ :: t => held && accessesLocked held t
  | held, .writeScore _ _ :: t => held && accessesLocked held t
  | held, _ :: t => accessesLocked held t

/-- The messages sent, each with the state of the lock at the time of the send
(`true`: held), starting with the lock held or not (`held`). -/
def sentUnder : Bool → List Action → List (Bool × Nat × Message)
  | _, [] => []
  | _, .lock :: t => sentUnder true t
  | _, .unlock :: t => sentUnder false t
  | held, .send dc m :: t => (held, dc, m) :: sentUnder held t
  | held, _ :: t => sentUnder held t

/-- No send under the lock: every `SendText` in the trace happens while the lock
is not held. -/
def sendsUnlocked (held : Bool) (t : List Action) : Bool :=
  (sentUnder held t).all fun x => !x.1

/-- Whether the lock is held after a trace, starting from `held`. -/
def heldAfter : Bool → List Action → Bool
  | held, [] => held
  | _, .lock :: t => heldAfter true t
  | _, .unlock :: t => heldAfter false t
  | held, _ :: t => heldAfter held t

/-- The score of a player in a room, if the player is present. -/
def scoreOf (r : Room) (id : String) : Option Int := (r.Players id).map Player.Score

/-- The invariant of the room: `0 ≤ Current ≤ len(Questions)`. -/
def Inv (r : Room) : Prop := 0 ≤ r.Current ∧ r.Current ≤ (r.Questions.length : Int)

/-- A room of two connected players, `p` with score 10 and `q` with score 0, at the
second question. -/
def demoRoom : Room where
  Players := fun id =>
    if id = "p" then some ⟨1, 10⟩ else if id = "q" then some ⟨2, 0⟩ else none
  Questions := room.Questions
  Current := 1
  fits := by decide

/-- A room as `demoRoom`, with the quiz over. -/
def overRoom : Room where
  Players := demoRoom.Players
  Questions := room.Questions
  Current := 3
  fits := by decide

/-- A room of two connected players, `p` and `q`, each with score 10, at the third
question. -/
def lateRoom : Room where
  Players := fun id =>
    if id = "p" then some ⟨1, 10⟩ else if id = "q" then some ⟨2, 10⟩ else none
  Questions := room.Questions
  Current := 2
  fits := by decide

/-- A room as `demoRoom`, with player `p` at the first question and at the largest
multiple of 10 that is an `int`. -/
def fullRoom : Room where
  Players := fun id =>
    if id = "p" then some ⟨1, 9223372036854775800⟩
    else if id = "q" then some ⟨2, 0⟩ else none
  Questions := room.Questions
  Current := 0
  fits := by decide

/-- A room without players and with an empty bank. -/
def emptyRoom : Room where
  Players := fun _ => none
  Questions := []
  Current := 0
  fits := by decide

/-- An answer payload choosing option `a` for question `id`. -/
def answer (id a : Int) : AnswerPayload := ⟨"answer", id, a, 0⟩

/-! ## Integer arithmetic -/

/-- Wrapping leaves a value inside the range of `int` unchanged. -/
theorem wrapInt_eq (x : Int) (h1 : minInt ≤ x) (h2 : x ≤ maxInt) : wrapInt x = x := by
  unfold minInt at h1
  unfold maxInt at h2
  unfold wrapInt
  omega

/-- The length of the bank, and every index up to it, is far inside the range of `int`. -/
theorem length_small (r : Room) : (r.Questions.length : Int) ≤ 144115188075855871 := by
  have h := r.fits
  unfold maxInt at h
  omega

/-- The increment of an index inside the bank does not wrap. -/
theorem wrapInt_succ (r : Room) (c : Int) (h0 : 0 ≤ c)
    (hlt : c < (r.Questions.length : Int)) : wrapInt (c + 1) = c + 1 := by
  have h := length_small r
  exact wrapInt_eq _ (by unfold minInt; omega) (by unfold maxInt; omega)

/-- An index that names a question is inside the bank. -/
theorem lt_of_question (r : Room) (q : Question)
    (hq : r.Questions[r.Current.toNat]? = some q) (h0 : 0 ≤ r.Current) :
    r.Current < (r.Questions.length : Int) := by
  rcases List.getElem?_eq_some_iff.mp hq with ⟨h, -⟩
  omega

/-! ## Closed forms of the handlers -/

theorem bind_run {α β : Type} (h : Handler α) (f : α → Handler β) (s : Exec) :
    (h >>= f) s = Handler.bind h f s := rfl

theorem pure_run {α : Type} (a : α) (s : Exec) :
    (pure a : Handler α) s = .ok a s := rfl

/-- Past the end of the bank `sendQuestion` sends the end text and nothing else. -/
theorem sendQuestion_end (dc : Nat) (s : Exec)
    (h : (s.room.Questions.length : Int) ≤ s.room.Current) :
    sendQuestion dc s = .ok () ⟨s.room, s.trace ++
      [.lock, .readCurrent, .lenQuestions, .send dc (.raw endText), .unlock]⟩ := by
  simp [sendQuestion, bind_run, Handler.bind, lock, emit, deferUnlock, getCurrent,
    lenQuestions, sendText, h]

/-- Inside the bank `sendQuestion` sends the question at `Current`. -/
theorem sendQuestion_question (dc : Nat) (s : Exec) (q : Question)
    (h0 : 0 ≤ s.room.Current) (hq : s.room.Questions[s.room.Current.toNat]? = some q) :
    sendQuestion dc s = .ok () ⟨s.room, s.trace ++
      [.lock, .readCurrent, .lenQuestions, .readCurrent, .indexQuestions s.room.Current,
       .readCurrent, .lenQuestions,
       .send dc (.question q.ID q.Text q.Options q.Duration (s.room.Current + 1)
         s.room.Questions.length), .unlock]⟩ := by
  have hlt : s.room.Current.toNat < s.room.Questions.length := by
    rcases List.getElem?_eq_some_iff.mp hq with ⟨h, -⟩
    exact h
  have hlt2 : ¬ ((s.room.Questions.length : Int) ≤ s.room.Current) := by omega
  have hneg : ¬ (s.room.Current < 0) := by omega
  have hw := wrapInt_succ s.room s.room.Current h0 (by omega)
  simp [sendQuestion, bind_run, Handler.bind, lock, emit, deferUnlock, getCurrent,
    lenQuestions, sendText, indexQuestions, hlt2, hneg, hq, hw]

/-- With a negative index `sendQuestion` panics at the lookup; the room is untouched. -/
theorem sendQuestion_neg (dc : Nat) (s : Exec) (h : s.room.Current < 0) :
    sendQuestion dc s = .fault .indexOutOfRange ⟨s.room, s.trace ++
      [.lock, .readCurrent, .lenQuestions, .readCurrent, .indexQuestions s.room.Current,
       .unlock]⟩ := by
  have hlt2 : ¬ ((s.room.Questions.length : Int) ≤ s.room.Current) := by omega
  simp [sendQuestion, bind_run, Handler.bind, lock, emit, deferUnlock, getCurrent,
    lenQuestions, sendText, indexQuestions, hlt2, h]

/-- An index inside the bank names a question. -/
theorem question_at (r : Room) (h0 : 0 ≤ r.Current)
    (hlt : r.Current < (r.Questions.length : Int)) :
    ∃ q, r.Questions[r.Current.toNat]? = some q := by
  have h : r.Current.toNat < r.Questions.length := by omega
  exact ⟨r.Questions[r.Current.toNat], List.getElem?_eq_getElem h⟩

/-- The grading part of `onMessage` on a correct answer, up to the final `sendQuestion`. -/
theorem onMessage_correct (p : String) (dc : Nat) (ans : AnswerPayload) (elapsed : Int)
    (s : Exec) (pl : Player) (q : Question)
    (h0 : 0 ≤ s.room.Current) (hq : s.room.Questions[s.room.Current.toNat]? = some q)
    (hp : s.room.Players p = some pl) (ha : ans.Answer = q.Answer) :
    onMessage p dc ans elapsed s = sendQuestion dc
      ⟨⟨Function.update s.room.Players p (some ⟨pl.DC, wrapInt (pl.Score + 10)⟩),
         s.room.Questions,
         s.room.Current + 1, s.room.fits⟩,
       s.trace ++ [.lock, .readCurrent, .indexQuestions s.room.Current, .readScore p,
         .writeScore p (wrapInt (pl.Score + 10)), .readScore p, .readCurrent,
         .writeCurrent (s.room.Current + 1), .unlock,
         .send dc (.result (wrapInt (pl.Score + 10)) elapsed), .sleep 500]⟩ := by
  have hneg : ¬ (s.room.Current < 0) := by omega
  have hw := wrapInt_succ s.room s.room.Current h0 (lt_of_question s.room q hq h0)
  simp [onMessage, bind_run, Handler.bind, lock, unlock, emit, getCurrent, setCurrent,
    indexQuestions, getScore, setScore, sendResult, sendText, sleep, hneg, hq, hp, ha, hw]

/-- The grading part of `onMessage` on a wrong answer, up to the final `sendQuestion`. -/
theorem onMessage_wrong (p : String) (dc : Nat) (ans : AnswerPayload) (elapsed : Int)
    (s : Exec) (pl : Player) (q : Question)
    (h0 : 0 ≤ s.room.Current) (hq : s.room.Questions[s.room.Current.toNat]? = some q)
    (hp : s.room.Players p = some pl) (ha : ans.Answer ≠ q.Answer) :
    onMessage p dc ans elapsed s = sendQuestion dc
      ⟨⟨s.room.Players, s.room.Questions, s.room.Current + 1, s.room.fits⟩,
       s.trace ++ [.lock, .readCurrent, .indexQuestions s.room.Current, .readScore p,
         .readCurrent, .writeCurrent (s.room.Current + 1), .unlock,
         .send dc (.result pl.Score elapsed), .sleep 500]⟩ := by
  have hneg : ¬ (s.room.Current < 0) := by omega
  have hw := wrapInt_succ s.room s.room.Current h0 (lt_of_question s.room q hq h0)
  simp [onMessage, bind_run, Handler.bind, lock, unlock, emit, getCurrent, setCurrent,
    indexQuestions, getScore, setScore, sendResult, sendText, sleep, hneg, hq, hp, ha,
    pure_run, hw]

/-- Outside the bank `onMessage` panics at the grading lookup, holding the lock,
with the room untouched. -/
theorem onMessage_outside (p : String) (dc : Nat) (ans : AnswerPayload) (elapsed : Int)
    (s : Exec) (h : s.room.Current < 0 ∨ (s.room.Questions.length : Int) ≤ s.room.Current) :
    onMessage p dc ans elapsed s = .fault .indexOutOfRange
      ⟨s.room, s.trace ++ [.lock, .readCurrent, .indexQuestions s.room.Current]⟩ := by
  by_cases hneg : s.room.Current < 0
  · simp [onMessage, bind_run, Handler.bind, lock, emit, getCurrent, indexQuestions, hneg]
  · have hlen : s.room.Questions.length ≤ s.room.Current.toNat := by omega
    have hnone : s.room.Questions[s.room.Current.toNat]? = none :=
      List.getElem?_eq_none hlen
    simp [onMessage, bind_run, Handler.bind, lock, emit, getCurrent, indexQuestions, hneg,
      hnone]

/-- Inside the bank, `onMessage` for a key missing from `Players` panics on the
nil pointer, with the room untouched. -/
theorem onMessage_absent (p : String) (dc : Nat) (ans : AnswerPayload) (elapsed : Int)
    (s : Exec) (q : Question)
    (h0 : 0 ≤ s.room.Current) (hq : s.room.Questions[s.room.Current.toNat]? = some q)
    (hp : s.room.Players p = none) :
    onMessage p dc ans elapsed s = .fault .nilDereference
      ⟨s.room, s.trace ++ [.lock, .readCurrent, .indexQuestions s.room.Current]⟩ := by
  have hneg : ¬ (s.room.Current < 0) := by omega
  by_cases ha : ans.Answer = q.Answer
  · simp [onMessage, bind_run, Handler.bind, lock, emit, getCurrent, indexQuestions,
      getScore, hneg, hq, hp, ha]
  · simp [onMessage, bind_run, Handler.bind, lock, emit, getCurrent, indexQuestions,
      getScore, hneg, hq, hp, ha, pure_run]

/-- The handler `onOpen` for a present player, up to the final `sendQuestion`. -/
theorem onOpen_present (p : String) (dc : Nat) (s : Exec) (pl : Player)
    (hp : s.room.Players p = some pl) :
    onOpen p dc s = sendQuestion dc
      ⟨⟨Function.update s.room.Players p (some ⟨pl.DC, 0⟩), s.room.Questions, 0,
         s.room.fits⟩,
       s.trace ++ [.writeCurrent 0, .writeScore p 0]⟩ := by
  simp [onOpen, bind_run, Handler.bind, setCurrent, setScore, hp]

/-- The handler `onOpen` for a key missing from `Players`: `Current` is reset, then
the nil pointer panics. -/
theorem onOpen_absent (p : String) (dc : Nat) (s : Exec) (hp : s.room.Players p = none) :
    onOpen p dc s = .fault .nilDereference
      ⟨⟨s.room.Players, s.room.Questions, 0, s.room.fits⟩,
       s.trace ++ [.writeCurrent 0]⟩ := by
  simp [onOpen, bind_run, Handler.bind, setCurrent, setScore, hp]

/-- The handler `onDataChannel` in closed form. -/
theorem onDataChannel_eq (p : String) (dc : Nat) (s : Exec) :
    onDataChannel p dc s = .ok ()
      ⟨⟨Function.update s.room.Players p (some ⟨dc, 0⟩), s.room.Questions, s.room.Current,
         s.room.fits⟩,
       s.trace ++ [.lock, .insertPlayer p dc, .unlock]⟩ := by
  simp [onDataChannel, bind_run, Handler.bind, lock, unlock, emit, insertPlayer]

/-- The function `sendQuestion` never changes the room. -/
theorem sendQuestion_room (dc : Nat) (s : Exec) : (sendQuestion dc s).room = s.room := by
  by_cases hge : (s.room.Questions.length : Int) ≤ s.room.Current
  · rw [sendQuestion_end dc s hge]; rfl
  · by_cases hneg : s.room.Current < 0
    · rw [sendQuestion_neg dc s hneg]; rfl
    · obtain ⟨q, hq⟩ := question_at s.room (by omega) (by omega)
      rw [sendQuestion_question dc s q (by omega) hq]; rfl

/-- With a non-negative index `sendQuestion` returns, having sent one message: the
question at `Current`, or the end text past the end of the bank. -/
theorem sendQuestion_sends (dc : Nat) (s : Exec) (h0 : 0 ≤ s.room.Current) :
    ∃ t, sendQuestion dc s = .ok () ⟨s.room, s.trace ++ (.lock :: t)⟩ ∧
      sent (.lock :: t) = [(dc, match s.room.Questions[s.room.Current.toNat]? with
        | some q =>
          .question q.ID q.Text q.Options q.Duration (s.room.Current + 1)
            (s.room.Questions.length : Int)
        | none => .raw endText)] := by
  by_cases hge : (s.room.Questions.length : Int) ≤ s.room.Current
  · have hnone : s.room.Questions[s.room.Current.toNat]? = none :=
      List.getElem?_eq_none (by omega)
    refine ⟨_, sendQuestion_end dc s hge, ?_⟩
    rw [hnone]; rfl
  · obtain ⟨q, hq⟩ := question_at s.room h0 (by omega)
    refine ⟨_, sendQuestion_question dc s q h0 hq, ?_⟩
    rw [hq]; rfl

/-- The messages sent over two consecutive pieces of a trace. -/
theorem sent_append (a b : List Action) : sent (a ++ b) = sent a ++ sent b := by
  induction a with
  | nil => rfl
  | cons x t ih => cases x <;> simp [sent, ih]

/-- Inside the bank and for a present player, `onMessage` returns: the graded
score is stored, `Current` is advanced, and the result and then the message of
`sendQuestion` at the advanced index are sent. -/
theorem onMessage_present (p : String) (dc : Nat) (ans : AnswerPayload) (elapsed : Int)
    (s : Exec) (pl : Player) (q : Question)
    (h0 : 0 ≤ s.room.Current) (hq : s.room.Questions[s.room.Current.toNat]? = some q)
    (hp : s.room.Players p = some pl) :
    ∃ t, onMessage p dc ans elapsed s = .ok ()
        ⟨⟨if ans.Answer = q.Answer
            then Function.update s.room.Players p (some ⟨pl.DC, wrapInt (pl.Score + 10)⟩)
            else s.room.Players,
          s.room.Questions, s.room.Current + 1, s.room.fits⟩, s.trace ++ t⟩ ∧
      sent t = [(dc, .result (if ans.Answer = q.Answer then wrapInt (pl.Score + 10) else pl.Score)
        elapsed),
        (dc, match s.room.Questions[(s.room.Current + 1).toNat]? with
          | some q1 =>
            .question q1.ID q1.Text q1.Options q1.Duration (s.room.Current + 1 + 1)
              (s.room.Questions.length : Int)
          | none => .raw endText)] := by
  by_cases ha : ans.Answer = q.Answer
  · rw [onMessage_correct p dc ans elapsed s pl q h0 hq hp ha]
    obtain ⟨t, ht, hs⟩ := sendQuestion_sends dc
      ⟨⟨Function.update s.room.Players p (some ⟨pl.DC, wrapInt (pl.Score + 10)⟩),
         s.room.Questions,
         s.room.Current + 1, s.room.fits⟩,
       s.trace ++ [.lock, .readCurrent, .indexQuestions s.room.Current, .readScore p,
         .writeScore p (wrapInt (pl.Score + 10)), .readScore p, .readCurrent,
         .writeCurrent (s.room.Current + 1), .unlock,
         .send dc (.result (wrapInt (pl.Score + 10)) elapsed), .sleep 500]⟩ (by simp; omega)
    refine ⟨[.lock, .readCurrent, .indexQuestions s.room.Current, .readScore p,
         .writeScore p (wrapInt (pl.Score + 10)), .readScore p, .readCurrent,
         .writeCurrent (s.room.Current + 1), .unlock,
         .send dc (.result (wrapInt (pl.Score + 10)) elapsed), .sleep 500] ++ (.lock :: t),
      ?_, ?_⟩
    · rw [ht, if_pos ha, List.append_assoc]
    · rw [sent_append, hs, if_pos ha]; rfl
  · rw [onMessage_wrong p dc ans elapsed s pl q h0 hq hp ha]
    obtain ⟨t, ht, hs⟩ := sendQuestion_sends dc
      ⟨⟨s.room.Players, s.room.Questions, s.room.Current + 1, s.room.fits⟩,
       s.trace ++ [.lock, .readCurrent, .indexQuestions s.room.Current, .readScore p,
         .readCurrent, .writeCurrent (s.room.Current + 1), .unlock,
         .send dc (.result pl.Score elapsed), .sleep 500]⟩ (by simp; omega)
    refine ⟨[.lock, .readCurrent, .indexQuestions s.room.Current, .readScore p,
         .readCurrent, .writeCurrent (s.room.Current + 1), .unlock,
         .send dc (.result pl.Score elapsed), .sleep 500] ++ (.lock :: t), ?_, ?_⟩
    · rw [ht, if_neg ha, List.append_assoc]
    · rw [sent_append, hs, if_neg ha]; rfl

/-! ## The room invariant -/

/-- Every handler preserves the invariant, whether it returns or panics. -/
theorem handle_inv (e : Event) (s : Exec) (h : Inv s.room) : Inv (handle e s).room := by
  obtain ⟨h0, h1⟩ := h
  cases e with
  | dataChannel p dc =>
    simp only [handle, onDataChannel_eq]
    exact ⟨h0, h1⟩
  | opened p dc =>
    simp only [handle]
    cases hp : s.room.Players p with
    | none =>
      rw [onOpen_absent p dc s hp]
      exact ⟨le_refl _, by simp [Outcome.room, Outcome.exec]⟩
    | some pl =>
      rw [onOpen_present p dc s pl hp, sendQuestion_room]
      exact ⟨le_refl _, by simp⟩
  | message p dc ans elapsed =>
    simp only [handle]
    by_cases hlt : s.room.Current < (s.room.Questions.length : Int)
    · obtain ⟨q, hq⟩ := question_at s.room h0 hlt
      cases hp : s.room.Players p with
      | none =>
        rw [onMessage_absent p dc ans elapsed s q h0 hq hp]
        exact ⟨h0, h1⟩
      | some pl =>
        by_cases ha : ans.Answer = q.Answer
        · rw [onMessage_correct p dc ans elapsed s pl q h0 hq hp ha, sendQuestion_room]
          exact ⟨by simp; omega, by simp; omega⟩
        · rw [onMessage_wrong p dc ans elapsed s pl q h0 hq hp ha, sendQuestion_room]
          exact ⟨by simp; omega, by simp; omega⟩
    · rw [onMessage_outside p dc ans elapsed s (Or.inr (by omega))]
      exact ⟨h0, h1⟩

/-- Every run of events preserves the invariant, whether it returns or panics. -/
theorem runEvents_inv (evs : List Event) (s : Exec) (h : Inv s.room) :
    Inv (runEvents evs s).room := by
  induction evs generalizing s with
  | nil => exact h
  | cons e es ih =>
    have hstep := handle_inv e s h
    simp only [runEvents, bind_run, Handler.bind]
    cases hh : handle e s with
    | ok a s' =>
      rw [hh] at hstep
      exact ih s' hstep
    | fault f s' =>
      rw [hh] at hstep
      exact hstep

/-! ## Traces and the lock -/

/-- The lock state after two consecutive pieces of a trace. -/
theorem heldAfter_append (a b : List Action) (h : Bool) :
    heldAfter h (a ++ b) = heldAfter (heldAfter h a) b := by
  induction a generalizing h with
  | nil => rfl
  | cons x t ih => cases x <;> simp [heldAfter, ih]

/-- Lock discipline over two consecutive pieces of a trace. -/
theorem accessesLocked_append (a b : List Action) (h : Bool) :
    accessesLocked h (a ++ b) = (accessesLocked h a && accessesLocked (heldAfter h a) b) := by
  induction a generalizing h with
  | nil => simp [accessesLocked, heldAfter]
  | cons x t ih => cases x <;> simp [accessesLocked, heldAfter, ih, Bool.and_assoc]

/-- The sends, with the lock state, over two consecutive pieces of a trace. -/
theorem sentUnder_append (a b : List Action) (h : Bool) :
    sentUnder h (a ++ b) = sentUnder h a ++ sentUnder (heldAfter h a) b := by
  induction a generalizing h with
  | nil => simp [sentUnder, heldAfter]
  | cons x t ih => cases x <;> simp [sentUnder, heldAfter, ih]

/-- The trace of `sendQuestion`: it takes the lock first, accesses the room under it,
sends at most one message, under it, and has released it at the end. -/
theorem sendQuestion_trace (dc : Nat) (s : Exec) :
    ∃ t, (sendQuestion dc s).trace = s.trace ++ (.lock :: t) ∧
      accessesLocked true t = true ∧ heldAfter true t = false ∧
      (s.room.Current < 0 ∧ sentUnder true t = [] ∨
        0 ≤ s.room.Current ∧ ∃ m, sentUnder true t = [(true, dc, m)]) := by
  by_cases hge : (s.room.Questions.length : Int) ≤ s.room.Current
  · rw [sendQuestion_end dc s hge]
    exact ⟨_, rfl, rfl, rfl, Or.inr ⟨by omega, _, rfl⟩⟩
  · by_cases hneg : s.room.Current < 0
    · rw [sendQuestion_neg dc s hneg]
      exact ⟨_, rfl, rfl, rfl, Or.inl ⟨hneg, rfl⟩⟩
    · obtain ⟨q, hq⟩ := question_at s.room (by omega) (by omega)
      rw [sendQuestion_question dc s q (by omega) hq]
      exact ⟨_, rfl, rfl, rfl, Or.inr ⟨by omega, _, rfl⟩⟩

/-- The helper `sendQuestion` keeps the lock discipline on every room. -/
theorem sendQuestion_accessesLocked (r : Room) (dc : Nat) :
    accessesLocked false (exec (sendQuestion dc) r).trace = true := by
  obtain ⟨t, ht, ha, -, -⟩ := sendQuestion_trace dc ⟨r, []⟩
  simp only [exec, ht, List.nil_append, accessesLocked, ha]

/-- The answer-message handler keeps the lock discipline on every room, for every
player and payload, whether it returns or panics. -/
theorem onMessage_accessesLocked (r : Room) (p : String) (dc : Nat) (ans : AnswerPayload)
    (elapsed : Int) :
    accessesLocked false (exec (onMessage p dc ans elapsed) r).trace = true := by
  by_cases hin : 0 ≤ r.Current ∧ r.Current < (r.Questions.length : Int)
  · obtain ⟨h0, hlt⟩ := hin
    obtain ⟨q, hq⟩ := question_at r h0 hlt
    cases hp : r.Players p with
    | none =>
      simp only [exec]
      rw [onMessage_absent p dc ans elapsed ⟨r, []⟩ q h0 hq hp]
      rfl
    | some pl =>
      by_cases ha : ans.Answer = q.Answer
      · simp only [exec]
        rw [onMessage_correct p dc ans elapsed ⟨r, []⟩ pl q h0 hq hp ha]
        obtain ⟨t, ht, hacc, -, -⟩ := sendQuestion_trace dc
          ⟨⟨Function.update r.Players p (some ⟨pl.DC, wrapInt (pl.Score + 10)⟩),
             r.Questions,
             r.Current + 1, r.fits⟩,
           [] ++ [.lock, .readCurrent, .indexQuestions r.Current, .readScore p,
             .writeScore p (wrapInt (pl.Score + 10)), .readScore p, .readCurrent,
             .writeCurrent (r.Current + 1), .unlock,
             .send dc (.result (wrapInt (pl.Score + 10)) elapsed), .sleep 500]⟩
        rw [ht, accessesLocked_append]
        simp [accessesLocked, heldAfter, hacc]
      · simp only [exec]
        rw [onMessage_wrong p dc ans elapsed ⟨r, []⟩ pl q h0 hq hp ha]
        obtain ⟨t, ht, hacc, -, -⟩ := sendQuestion_trace dc
          ⟨⟨r.Players, r.Questions, r.Current + 1, r.fits⟩,
           [] ++ [.lock, .readCurrent, .indexQuestions r.Current, .readScore p,
             .readCurrent, .writeCurrent (r.Current + 1), .unlock,
             .send dc (.result pl.Score elapsed), .sleep 500]⟩
        rw [ht, accessesLocked_append]
        simp [accessesLocked, heldAfter, hacc]
  · have hout : r.Current < 0 ∨ (r.Questions.length : Int) ≤ r.Current := by omega
    simp only [exec]
    rw [onMessage_outside p dc ans elapsed ⟨r, []⟩ hout]
    rfl

/-- The channel-open handler breaks the lock discipline on every room: its first
action writes `Current` with the lock not held. -/
theorem onOpen_not_accessesLocked (r : Room) (p : String) (dc : Nat) :
    accessesLocked false (exec (onOpen p dc) r).trace = false := by
  cases hp : r.Players p with
  | none =>
    simp only [exec]
    rw [onOpen_absent p dc ⟨r, []⟩ hp]
    rfl
  | some pl =>
    simp only [exec]
    rw [onOpen_present p dc ⟨r, []⟩ pl hp]
    obtain ⟨t, ht, -, -, -⟩ := sendQuestion_trace dc
      ⟨⟨Function.update r.Players p (some ⟨pl.DC, 0⟩), r.Questions, 0, r.fits⟩,
       [] ++ [.writeCurrent 0, .writeScore p 0]⟩
    rw [ht]
    rfl

/-! ## Scores along a run -/

/-- The channel-open handler for a present player returns with the player's score
and `Current` reset and everything else kept, having sent the question at index 0,
or the end text for an empty bank. -/
theorem onOpen_ok (p : String) (dc : Nat) (s : Exec) (pl : Player)
    (hp : s.room.Players p = some pl) :
    ∃ t, onOpen p dc s = .ok ()
        ⟨⟨Function.update s.room.Players p (some ⟨pl.DC, 0⟩), s.room.Questions, 0,
          s.room.fits⟩, s.trace ++ t⟩ ∧
      sent t = [(dc, match s.room.Questions[0]? with
        | some q0 =>
          .question q0.ID q0.Text q0.Options q0.Duration 1 (s.room.Questions.length : Int)
        | none => .raw endText)] := by
  rw [onOpen_present p dc s pl hp]
  obtain ⟨t, ht, hs⟩ := sendQuestion_sends dc
    ⟨⟨Function.update s.room.Players p (some ⟨pl.DC, 0⟩), s.room.Questions, 0,
        s.room.fits⟩,
      s.trace ++ [.writeCurrent 0, .writeScore p 0]⟩ (le_refl _)
  refine ⟨[.writeCurrent 0, .writeScore p 0] ++ (.lock :: t), ?_, ?_⟩
  · rw [ht, List.append_assoc]
  · rw [sent_append, hs]; rfl

/-- One successfully handled answer message, from any player, advances `Current`
by one and keeps the score of `p` or adds 10 to it, without wrapping, when that score
is at most ten times `Current`. -/
theorem message_step (p : String) (e : Event) (he : e.isMessage = true) (s : Exec)
    (hok : (handle e s).isOk = true) (a : Int) (ha : scoreOf s.room p = some a)
    (ha0 : 0 ≤ a) (hac : a ≤ 10 * s.room.Current) :
    ∃ b, scoreOf (handle e s).room p = some b ∧ (b = a ∨ b = a + 10) ∧
      (handle e s).room.Current = s.room.Current + 1 := by
  cases e with
  | dataChannel p' dc => simp [Event.isMessage] at he
  | opened p' dc => simp [Event.isMessage] at he
  | message p' dc ans elapsed =>
    simp only [handle] at hok ⊢
    by_cases hin : 0 ≤ s.room.Current ∧ s.room.Current < (s.room.Questions.length : Int)
    · obtain ⟨h0, hlt⟩ := hin
      obtain ⟨q, hq⟩ := question_at s.room h0 hlt
      cases hp : s.room.Players p' with
      | none =>
        rw [onMessage_absent p' dc ans elapsed s q h0 hq hp] at hok
        simp [Outcome.isOk] at hok
      | some pl =>
        obtain ⟨t, ht, -⟩ := onMessage_present p' dc ans elapsed s pl q h0 hq hp
        rw [ht]
        simp only [Outcome.room, Outcome.exec, scoreOf] at ha ⊢
        by_cases hc : ans.Answer = q.Answer
        · by_cases hpp : p = p'
          · subst hpp
            rw [hp] at ha
            simp only [Option.map_some', Option.some.injEq] at ha
            have hlen := length_small s.room
            have hw : wrapInt (pl.Score + 10) = a + 10 := by
              rw [ha]
              exact wrapInt_eq _ (by unfold minInt; omega) (by unfold maxInt; omega)
            exact ⟨a + 10, by simp [hc, hw], Or.inr rfl, trivial⟩
          · exact ⟨a, by simp [hc, Function.update_noteq hpp, ha], Or.inl rfl, trivial⟩
        · exact ⟨a, by simp [hc, ha], Or.inl rfl, trivial⟩
    · have hout : s.room.Current < 0 ∨ (s.room.Questions.length : Int) ≤ s.room.Current := by
        omega
      rw [onMessage_outside p' dc ans elapsed s hout] at hok
      simp [Outcome.isOk] at hok

/-- A successfully handled run of answer messages keeps the score of `p` a
non-negative multiple of 10, at most ten times `Current`, and does not lower it. -/
theorem run_messages (p : String) (evs : List Event)
    (hm : ∀ x ∈ evs, x.isMessage = true) (s : Exec)
    (hok : (runEvents evs s).isOk = true) (a : Int) (ha : scoreOf s.room p = some a)
    (h0 : 0 ≤ a) (h10 : 10 ∣ a) (hac : a ≤ 10 * s.room.Current) :
    ∃ b, scoreOf (runEvents evs s).room p = some b ∧ 0 ≤ b ∧ 10 ∣ b ∧ a ≤ b ∧
      b ≤ 10 * (runEvents evs s).room.Current := by
  induction evs generalizing s a with
  | nil => exact ⟨a, ha, h0, h10, le_refl _, hac⟩
  | cons e es ih =>
    have he := hm e (List.mem_cons_self _ _)
    have hes : ∀ x ∈ es, x.isMessage = true := fun x hx => hm x (List.mem_cons_of_mem _ hx)
    simp only [runEvents, bind_run, Handler.bind] at hok ⊢
    cases hh : handle e s with
    | fault f s' =>
      rw [hh] at hok
      simp [Outcome.isOk] at hok
    | ok u s' =>
      rw [hh] at hok
      have hstep := message_step p e he s (by rw [hh]; rfl) a ha h0 hac
      rw [hh] at hstep
      obtain ⟨b, hb, hab, hcur⟩ := hstep
      simp only [Outcome.room, Outcome.exec] at hb hcur
      have hb0 : 0 ≤ b := by rcases hab with h | h <;> omega
      have hb10 : 10 ∣ b := by
        rcases hab with h | h
        · rw [h]; exact h10
        · rw [h]; exact dvd_add h10 (dvd_refl 10)
      have hbc : b ≤ 10 * s'.room.Current := by rcases hab with h | h <;> omega
      obtain ⟨c, hc, hc0, hc10, hbc', hcc⟩ := ih hes s' hok b hb hb0 hb10 hbc
      exact ⟨c, hc, hc0, hc10, by rcases hab with h | h <;> omega, hcc⟩

/-! ## The claims -/

/-- C1 as amended (grading): in a room with `0 ≤ Current < len(Questions)`, for a
player `p` of the room and any decoded payload, the answer-message handler returns
and leaves `p` with the old score plus 10, computed in the wrapping arithmetic of
`int`, when `ans.Answer` equals the `Answer` of the question at the index `Current`
held before the advance, and with the old score otherwise; the first message sent is
the result carrying exactly that score; the outcome is the same for every payload
with the same `Answer`, whatever its `Type`, `ID` and `Time`; and the wrapped sum is
the old score plus 10 when the old score is at most `maxInt - 10`, and that sum
less `2^64` above. -/
theorem onMessage_grades (r : Room) (p : String) (dc : Nat) (ans : AnswerPayload)
    (elapsed : Int) (pl : Player) (q : Question)
    (h0 : 0 ≤ r.Current) (hlt : r.Current < (r.Questions.length : Int))
    (hp : r.Players p = some pl) (hq : r.Questions[r.Current.toNat]? = some q) :
    (exec (onMessage p dc ans elapsed) r).isOk = true ∧
    scoreOf (exec (onMessage p dc ans elapsed) r).room p =
      some (if ans.Answer = q.Answer then wrapInt (pl.Score + 10) else pl.Score) ∧
    (∃ m, sent (exec (onMessage p dc ans elapsed) r).trace =
      [(dc, .result (if ans.Answer = q.Answer then wrapInt (pl.Score + 10) else pl.Score)
          elapsed),
       (dc, m)]) ∧
    (∀ (typ : String) (id time : Int),
      exec (onMessage p dc ⟨typ, id, ans.Answer, time⟩ elapsed) r =
        exec (onMessage p dc ans elapsed) r) ∧
    (minInt ≤ pl.Score → pl.Score ≤ maxInt - 10 →
      wrapInt (pl.Score + 10) = pl.Score + 10) ∧
    (maxInt - 10 < pl.Score → pl.Score ≤ maxInt →
      wrapInt (pl.Score + 10) = pl.Score + 10 - 18446744073709551616) := by
  have _ := hlt
  obtain ⟨t, ht, hs⟩ := onMessage_present p dc ans elapsed ⟨r, []⟩ pl q h0 hq hp
  refine ⟨?_, ?_, ?_, ?_, ?_, ?_⟩
  · simp only [exec, ht, Outcome.isOk]
  · simp only [exec, ht, Outcome.room, Outcome.exec, scoreOf]
    by_cases ha : ans.Answer = q.Answer <;> simp [ha, hp]
  · simp only [exec, ht, Outcome.trace, Outcome.exec, List.nil_append]
    exact ⟨_, hs⟩
  · intro typ id time
    simp only [exec]
    by_cases ha : ans.Answer = q.Answer
    · rw [onMessage_correct p dc ans elapsed ⟨r, []⟩ pl q h0 hq hp ha,
        onMessage_correct p dc ⟨typ, id, ans.Answer, time⟩ elapsed ⟨r, []⟩ pl q h0 hq hp ha]
    · rw [onMessage_wrong p dc ans elapsed ⟨r, []⟩ pl q h0 hq hp ha,
        onMessage_wrong p dc ⟨typ, id, ans.Answer, time⟩ elapsed ⟨r, []⟩ pl q h0 hq hp ha]
  · intro h1 h2
    exact wrapInt_eq _ (by unfold minInt at *; omega) (by unfold maxInt at *; omega)
  · intro h1 h2
    unfold maxInt at h1 h2
    unfold wrapInt
    omega

/-- C1 as stated fails: in `fullRoom` player `p` has score 9223372036854775800 and
answers the first question correctly; the score stored and sent in the result is
-9223372036854775806, not the old score plus 10. -/
theorem onMessage_grades_wraps :
    (0 ≤ fullRoom.Current ∧ fullRoom.Current < (fullRoom.Questions.length : Int) ∧
      fullRoom.Players "p" = some ⟨1, 9223372036854775800⟩ ∧
      (fullRoom.Questions[fullRoom.Current.toNat]?).map Question.Answer =
        some (answer 1 0).Answer) ∧
    scoreOf (exec (onMessage "p" 1 (answer 1 0) 7) fullRoom).room "p" =
      some (-9223372036854775806) ∧
    scoreOf (exec (onMessage "p" 1 (answer 1 0) 7) fullRoom).room "p" ≠
      some (9223372036854775800 + 10) ∧
    (sent (exec (onMessage "p" 1 (answer 1 0) 7) fullRoom).trace).head? =
      some (1, .result (-9223372036854775806) 7) := by
  simp [exec, bind_run, Handler.bind, onOpen, onMessage, sendQuestion, sendResult,
    sendText, sleep, deferUnlock, lock, unlock, emit, getCurrent, setCurrent, getScore,
    setScore, lenQuestions, indexQuestions, fullRoom, room, answer, Outcome.room,
    Outcome.exec, Outcome.trace, Outcome.isOk, Outcome.panicked, pure_run, Function.update,
    sent, scoreOf, wrapInt]

/-- Witness of C1: in `demoRoom`, player `p` (score 10) answers the second question
correctly and ends with score 20, whatever the `id` of the payload. -/
theorem onMessage_grades_witness :
    (0 ≤ demoRoom.Current ∧ demoRoom.Current < (demoRoom.Questions.length : Int) ∧
      demoRoom.Players "p" = some ⟨1, 10⟩ ∧
      demoRoom.Questions[demoRoom.Current.toNat]? = some ⟨2, "Apa fungsi RAM?",
        ["Penyimpanan sementara", "Penyimpanan permanen", "CPU processing"], 0, 10⟩) ∧
    scoreOf (exec (onMessage "p" 1 (answer 99 0) 7) demoRoom).room "p" = some 20 :=
  ⟨⟨by decide, by decide, rfl, rfl⟩,
   (onMessage_grades demoRoom "p" 1 (answer 99 0) 7 ⟨1, 10⟩ ⟨2, "Apa fungsi RAM?",
      ["Penyimpanan sementara", "Penyimpanan permanen", "CPU processing"], 0, 10⟩
      (by decide) (by decide) rfl rfl).2.1⟩

/-- C2 (advance): in a room with `Current = i`, `0 ≤ i < len(Questions)`, for every
player `p` of the room and every payload, correct or not, the answer-message handler
returns with `Current = i + 1`; the message it sends after the result is the question
at index `i + 1`, or the end text when `i + 1` is the length of the bank. -/
theorem onMessage_advances (r : Room) (p : String) (dc : Nat) (ans : AnswerPayload)
    (elapsed : Int) (pl : Player)
    (h0 : 0 ≤ r.Current) (hlt : r.Current < (r.Questions.length : Int))
    (hp : r.Players p = some pl) :
    (exec (onMessage p dc ans elapsed) r).isOk = true ∧
    (exec (onMessage p dc ans elapsed) r).room.Current = r.Current + 1 ∧
    ∃ score, sent (exec (onMessage p dc ans elapsed) r).trace =
      [(dc, .result score elapsed),
       (dc, match r.Questions[(r.Current + 1).toNat]? with
          | some q1 =>
            .question q1.ID q1.Text q1.Options q1.Duration (r.Current + 1 + 1)
              (r.Questions.length : Int)
          | none => .raw "\x7b\"type\":\"end\"\x7d")] := by
  obtain ⟨q, hq⟩ := question_at r h0 hlt
  obtain ⟨t, ht, hs⟩ := onMessage_present p dc ans elapsed ⟨r, []⟩ pl q h0 hq hp
  simp only [exec, ht, Outcome.isOk, Outcome.room, Outcome.exec, Outcome.trace,
    List.nil_append, true_and]
  exact ⟨_, hs⟩

/-- Witness of C2: in `demoRoom` (index 1, the second question) a wrong answer of
player `q` moves the index to 2 and is followed by the third question. -/
theorem onMessage_advances_witness :
    (0 ≤ demoRoom.Current ∧ demoRoom.Current < (demoRoom.Questions.length : Int) ∧
      demoRoom.Players "q" = some ⟨2, 0⟩) ∧
    (exec (onMessage "q" 2 (answer 2 1) 7) demoRoom).room.Current = 1 + 1 ∧
    ∃ score, sent (exec (onMessage "q" 2 (answer 2 1) 7) demoRoom).trace =
      [(2, .result score 7),
       (2, .question 3 "OS singkatan dari?"
          ["Operating System", "Open Software", "Optimal System"] 10 3 3)] :=
  ⟨⟨by decide, by decide, rfl⟩,
   (onMessage_advances demoRoom "q" 2 (answer 2 1) 7 ⟨2, 0⟩ (by decide) (by decide) rfl).2⟩

/-- C3 (room invariant): after any finite sequence of data-channel, channel-open and
answer-message events from any players, run from the initial `room`, the room
reached (on return as on panic) satisfies `0 ≤ Current ≤ len(Questions)`. -/
theorem room_invariant (evs : List Event) :
    0 ≤ (exec (runEvents evs) room).room.Current ∧
    (exec (runEvents evs) room).room.Current ≤
      ((exec (runEvents evs) room).room.Questions.length : Int) :=
  runEvents_inv evs ⟨room, []⟩ ⟨by decide, by decide⟩

/-- C4 as amended (unguarded grading lookup): in a room with `0 ≤ Current`, the
answer-message handler panics with an index out of range exactly when
`len(Questions) ≤ Current`; when it does, the room is the one it started from; with
`Current < len(Questions)` the lookup `room.Questions[room.Current]` succeeds, the
handler does not raise that panic, and it returns for every player of the room; and
an answer handled in a state in which `sendQuestion` sends the end text panics. -/
theorem onMessage_index_fault (r : Room) (p : String) (dc : Nat) (ans : AnswerPayload)
    (elapsed : Int) (h0 : 0 ≤ r.Current) :
    ((exec (onMessage p dc ans elapsed) r).panicked = some .indexOutOfRange ↔
      (r.Questions.length : Int) ≤ r.Current) ∧
    ((exec (onMessage p dc ans elapsed) r).panicked = some .indexOutOfRange →
      (exec (onMessage p dc ans elapsed) r).room = r) ∧
    (r.Current < (r.Questions.length : Int) →
      (exec (indexQuestions r.Current) r).isOk = true ∧
      (exec (onMessage p dc ans elapsed) r).panicked ≠ some .indexOutOfRange ∧
      ∀ pl, r.Players p = some pl → (exec (onMessage p dc ans elapsed) r).isOk = true) ∧
    ((dc, Message.raw "\x7b\"type\":\"end\"\x7d") ∈ sent (exec (sendQuestion dc) r).trace →
      (exec (onMessage p dc ans elapsed) r).panicked = some .indexOutOfRange) := by
  by_cases hlt : r.Current < (r.Questions.length : Int)
  · obtain ⟨q, hq⟩ := question_at r h0 hlt
    have hneg : ¬ (r.Current < 0) := by omega
    have hno : (exec (onMessage p dc ans elapsed) r).panicked ≠ some .indexOutOfRange := by
      cases hp : r.Players p with
      | none =>
        simp only [exec]
        rw [onMessage_absent p dc ans elapsed ⟨r, []⟩ q h0 hq hp]
        simp [Outcome.panicked]
      | some pl =>
        obtain ⟨t, ht, -⟩ := onMessage_present p dc ans elapsed ⟨r, []⟩ pl q h0 hq hp
        simp only [exec, ht, Outcome.panicked]
        simp
    refine ⟨⟨fun h => absurd h hno, fun h => absurd h (by omega)⟩, fun h => absurd h hno,
      fun _ => ⟨?_, hno, ?_⟩, ?_⟩
    · simp [exec, indexQuestions, hneg, hq, Outcome.isOk]
    · intro pl hp
      obtain ⟨t, ht, -⟩ := onMessage_present p dc ans elapsed ⟨r, []⟩ pl q h0 hq hp
      simp only [exec, ht, Outcome.isOk]
    · intro hmem
      have hs := sendQuestion_question dc ⟨r, []⟩ q h0 hq
      simp [exec, hs, Outcome.trace, Outcome.exec, sent] at hmem
  · have hge : (r.Questions.length : Int) ≤ r.Current := by omega
    have hout := onMessage_outside p dc ans elapsed ⟨r, []⟩ (Or.inr hge)
    refine ⟨⟨fun _ => by omega, fun _ => ?_⟩, fun _ => ?_, fun h => absurd h hlt,
      fun _ => ?_⟩
    · simp only [exec, hout, Outcome.panicked]
    · simp only [exec, hout, Outcome.room, Outcome.exec]
    · simp only [exec, hout, Outcome.panicked]

/-- C4 as stated fails: in `overRoom` the quiz is over and `sendQuestion` sends the
end text to player `p`; player `q` then opens a channel, which resets the index, and
the answer of `p` that arrives after it is graded and returns without a panic. -/
theorem onMessage_after_end :
    sent (exec (sendQuestion 1) overRoom).trace = [(1, .raw "\x7b\"type\":\"end\"\x7d")] ∧
    (exec (onOpen "q" 2) overRoom).room.Current = 0 ∧
    (exec (onMessage "p" 1 (answer 3 0) 7) (exec (onOpen "q" 2) overRoom).room).isOk =
      true ∧
    (exec (onMessage "p" 1 (answer 3 0) 7) (exec (onOpen "q" 2) overRoom).room).panicked =
      none ∧
    scoreOf (exec (onMessage "p" 1 (answer 3 0) 7) (exec (onOpen "q" 2) overRoom).room).room
      "p" = some 20 := by
  simp [exec, bind_run, Handler.bind, onOpen, onMessage, sendQuestion, sendResult,
    sendText, sleep, deferUnlock, lock, unlock, emit, getCurrent, setCurrent, getScore,
    setScore, lenQuestions, indexQuestions, overRoom, demoRoom, endText, room, answer, Outcome.room,
    Outcome.exec, Outcome.trace, Outcome.isOk, Outcome.panicked, pure_run, Function.update,
    sent, scoreOf, wrapInt]

/-- Witness of C4: in `overRoom` (index 3 of 3) an answer panics with an index out of
range. -/
theorem onMessage_index_fault_witness :
    0 ≤ overRoom.Current ∧
    (exec (onMessage "p" 1 (answer 3 0) 7) overRoom).panicked = some .indexOutOfRange :=
  ⟨by decide,
   (onMessage_index_fault overRoom "p" 1 (answer 3 0) 7 (by decide)).1.mpr (by decide)⟩

/-- C5 as stated fails: in `lateRoom` player `q` is at index 2; after the channel-open
of player `p` the index is 0, and the next answer of `q` is followed by the question
with id 2 and progress 2 of 3; question 0 (id 1, progress 1 of 3) is not sent to `q`. -/
theorem onOpen_next_question :
    lateRoom.Players "q" = some ⟨2, 10⟩ ∧ lateRoom.Current = 2 ∧
    (exec (onOpen "p" 1) lateRoom).room.Current = 0 ∧
    sent (exec (onMessage "q" 2 (answer 3 0) 0) (exec (onOpen "p" 1) lateRoom).room).trace =
      [(2, .result 20 0),
       (2, .question 2 "Apa fungsi RAM?"
         ["Penyimpanan sementara", "Penyimpanan permanen", "CPU processing"] 10 2 3)] ∧
    (2, Message.question 1 "Apa kepanjangan CPU?"
        ["Central Processing Unit", "Computer Personal Unit", "Control Processing Unit"]
        10 1 3) ∉
      sent (exec (onMessage "q" 2 (answer 3 0) 0) (exec (onOpen "p" 1) lateRoom).room).trace := by
  simp [exec, handle, bind_run, Handler.bind, onOpen, onMessage, sendQuestion, sendResult,
    sendText, sleep, deferUnlock, lock, unlock, emit, getCurrent, setCurrent, getScore,
    setScore, lenQuestions, indexQuestions, lateRoom, room, answer, Outcome.room,
    Outcome.exec, Outcome.trace, pure_run, Function.update, sent, wrapInt]

/-- C5 as amended: for a player `p` of the room, whatever `Current` is, the
channel-open handler of `p` returns with `Current = 0` and the score of `p` at 0, and
keeps every other player; its only message, the question at index 0 or the end text
for an empty bank, goes to the channel of `p`; and a second player `q` shares the
index 0: an answer of `q` handled in the room the open leaves is graded against
question 0. -/
theorem onOpen_resets (r : Room) (p : String) (dc : Nat) (pl : Player)
    (hp : r.Players p = some pl) :
    (exec (onOpen p dc) r).isOk = true ∧
    (exec (onOpen p dc) r).room.Current = 0 ∧
    scoreOf (exec (onOpen p dc) r).room p = some 0 ∧
    (∀ q, q ≠ p → (exec (onOpen p dc) r).room.Players q = r.Players q) ∧
    sent (exec (onOpen p dc) r).trace =
      [(dc, match r.Questions[0]? with
         | some q0 =>
           .question q0.ID q0.Text q0.Options q0.Duration 1 (r.Questions.length : Int)
         | none => .raw "\x7b\"type\":\"end\"\x7d")] ∧
    (∀ (q : String) (dcq : Nat) (ans : AnswerPayload) (elapsed : Int) (plq : Player)
        (q0 : Question),
      q ≠ p → r.Players q = some plq → r.Questions[0]? = some q0 →
      scoreOf (exec (onMessage q dcq ans elapsed) (exec (onOpen p dc) r).room).room q =
        some (if ans.Answer = q0.Answer then wrapInt (plq.Score + 10) else plq.Score) ∧
      ∃ m, sent (exec (onMessage q dcq ans elapsed) (exec (onOpen p dc) r).room).trace =
        [(dcq, .result
            (if ans.Answer = q0.Answer then wrapInt (plq.Score + 10) else plq.Score)
            elapsed),
         (dcq, m)]) := by
  obtain ⟨t, ht, hst⟩ := onOpen_ok p dc ⟨r, []⟩ pl hp
  simp only [exec, ht, Outcome.isOk, Outcome.room, Outcome.exec, Outcome.trace, scoreOf,
    List.nil_append]
  refine ⟨trivial, trivial, by simp, fun q hq => Function.update_noteq hq _ _, hst, ?_⟩
  intro q dcq ans elapsed plq q0 hqp hplq hq0
  have hplq' : (Function.update r.Players p (some (⟨pl.DC, 0⟩ : Player))) q = some plq := by
    rw [Function.update_noteq hqp]; exact hplq
  obtain ⟨u, hu, hs⟩ := onMessage_present q dcq ans elapsed
    ⟨⟨Function.update r.Players p (some ⟨pl.DC, 0⟩), r.Questions, 0, r.fits⟩, []⟩ plq q0
    (le_refl _) hq0 hplq'
  simp only [hu, List.nil_append]
  refine ⟨?_, _, hs⟩
  by_cases ha : ans.Answer = q0.Answer <;> simp [ha, hplq']

/-- Witness of C5 as amended: in `lateRoom` the channel-open of player `p` resets the
index and the score of `p` and sends the first question to `p`, and a wrong answer
of player `q` handled next leaves `q` with its score. -/
theorem onOpen_resets_witness :
    lateRoom.Players "p" = some ⟨1, 10⟩ ∧
    (exec (onOpen "p" 1) lateRoom).room.Current = 0 ∧
    scoreOf (exec (onOpen "p" 1) lateRoom).room "p" = some 0 ∧
    sent (exec (onOpen "p" 1) lateRoom).trace =
      [(1, .question 1 "Apa kepanjangan CPU?"
         ["Central Processing Unit", "Computer Personal Unit", "Control Processing Unit"]
         10 1 3)] ∧
    ("q" ≠ "p" ∧ lateRoom.Players "q" = some ⟨2, 10⟩ ∧
      lateRoom.Questions[0]? = some ⟨1, "Apa kepanjangan CPU?",
        ["Central Processing Unit", "Computer Personal Unit", "Control Processing Unit"],
        0, 10⟩) ∧
    scoreOf (exec (onMessage "q" 2 (answer 3 1) 0) (exec (onOpen "p" 1) lateRoom).room).room
      "q" = some 10 :=
  ⟨rfl, (onOpen_resets lateRoom "p" 1 ⟨1, 10⟩ rfl).2.1,
   (onOpen_resets lateRoom "p" 1 ⟨1, 10⟩ rfl).2.2.1,
   (onOpen_resets lateRoom "p" 1 ⟨1, 10⟩ rfl).2.2.2.2.1,
   ⟨by decide, rfl, rfl⟩,
   ((onOpen_resets lateRoom "p" 1 ⟨1, 10⟩ rfl).2.2.2.2.2 "q" 2 (answer 3 1) 0 ⟨2, 10⟩
     ⟨1, "Apa kepanjangan CPU?",
       ["Central Processing Unit", "Computer Personal Unit", "Control Processing Unit"],
       0, 10⟩ (by decide) rfl rfl).1⟩

/-- C6 (score invariant): after the channel-open of player `p` and any sequence of
successfully handled answer messages, from `p` or from anyone, each further
successfully handled answer message leaves the score of `p` a non-negative multiple
of 10, as it was before, and not below its value before that message. -/
theorem score_invariant (r : Room) (p : String) (dc : Nat) (evs : List Event) (e : Event)
    (hm : ∀ x ∈ evs, x.isMessage = true) (he : e.isMessage = true)
    (h1 : (exec (runEvents (.opened p dc :: evs)) r).isOk = true)
    (h2 : (handle e (exec (runEvents (.opened p dc :: evs)) r).exec).isOk = true) :
    ∃ a b : Int,
      scoreOf (exec (runEvents (.opened p dc :: evs)) r).room p = some a ∧
      scoreOf (handle e (exec (runEvents (.opened p dc :: evs)) r).exec).room p = some b ∧
      0 ≤ a ∧ 10 ∣ a ∧ 0 ≤ b ∧ 10 ∣ b ∧ a ≤ b := by
  simp only [exec, runEvents, bind_run, Handler.bind, handle] at h1 h2 ⊢
  cases hp : r.Players p with
  | none =>
    rw [onOpen_absent p dc ⟨r, []⟩ hp] at h1
    simp [Outcome.isOk] at h1
  | some pl =>
    obtain ⟨t, ht, -⟩ := onOpen_ok p dc ⟨r, []⟩ pl hp
    rw [ht] at h1 h2 ⊢
    simp only at h1 h2 ⊢
    obtain ⟨a, ha, ha0, ha10, -, hac⟩ := run_messages p evs hm _ h1 0
      (by simp [scoreOf]) (le_refl _) (dvd_zero _) (le_refl _)
    obtain ⟨b, hb, hab, -⟩ := message_step p e he _ h2 a ha ha0 hac
    refine ⟨a, b, ha, hb, ha0, ha10, ?_, ?_, ?_⟩
    · rcases hab with h | h <;> omega
    · rcases hab with h | h
      · rw [h]; exact ha10
      · rw [h]; exact dvd_add ha10 (dvd_refl 10)
    · rcases hab with h | h <;> omega

/-- Witness of C6: from `demoRoom`, player `p` reopens, player `q` answers, then `p`
answers; both runs return. -/
theorem score_invariant_witness :
    ((∀ x ∈ [Event.message "q" 2 (answer 1 0) 3], x.isMessage = true) ∧
      (Event.message "p" 1 (answer 2 0) 4).isMessage = true ∧
      (exec (runEvents [.opened "p" 1, .message "q" 2 (answer 1 0) 3]) demoRoom).isOk = true ∧
      (handle (.message "p" 1 (answer 2 0) 4)
        (exec (runEvents [.opened "p" 1, .message "q" 2 (answer 1 0) 3])
          demoRoom).exec).isOk = true) ∧
    ∃ a b : Int,
      scoreOf (exec (runEvents [.opened "p" 1, .message "q" 2 (answer 1 0) 3])
        demoRoom).room "p" = some a ∧
      scoreOf (handle (.message "p" 1 (answer 2 0) 4)
        (exec (runEvents [.opened "p" 1, .message "q" 2 (answer 1 0) 3])
          demoRoom).exec).room "p" = some b ∧
      0 ≤ a ∧ 10 ∣ a ∧ 0 ≤ b ∧ 10 ∣ b ∧ a ≤ b :=
  have h1 : (exec (runEvents [.opened "p" 1, .message "q" 2 (answer 1 0) 3])
      demoRoom).isOk = true := by
    simp [exec, runEvents, handle, bind_run, Handler.bind, onOpen, onMessage, sendQuestion,
      sendResult, sendText, sleep, deferUnlock, lock, unlock, emit, getCurrent, setCurrent,
      getScore, setScore, lenQuestions, indexQuestions, demoRoom, room, answer, Outcome.isOk,
      pure_run, Function.update, wrapInt]
  have h2 : (handle (.message "p" 1 (answer 2 0) 4)
      (exec (runEvents [.opened "p" 1, .message "q" 2 (answer 1 0) 3])
        demoRoom).exec).isOk = true := by
    simp [exec, runEvents, handle, bind_run, Handler.bind, onOpen, onMessage, sendQuestion,
      sendResult, sendText, sleep, deferUnlock, lock, unlock, emit, getCurrent, setCurrent,
      getScore, setScore, lenQuestions, indexQuestions, demoRoom, room, answer, Outcome.isOk,
      Outcome.exec, pure_run, Function.update, wrapInt]
  ⟨⟨by decide, rfl, h1, h2⟩,
   score_invariant demoRoom "p" 1 [.message "q" 2 (answer 1 0) 3]
     (.message "p" 1 (answer 2 0) 4) (by decide) rfl h1 h2⟩

/-- C7 (end of quiz): in a room with `len(Questions) ≤ Current`, the empty bank
included, `sendQuestion` returns having sent exactly one message, the literal text
`{"type":"end"}`, having indexed the bank nowhere, and leaving the room (so `Current`
and every score) unchanged. -/
theorem sendQuestion_past_end (r : Room) (dc : Nat)
    (h : (r.Questions.length : Int) ≤ r.Current) :
    (exec (sendQuestion dc) r).isOk = true ∧
    sent (exec (sendQuestion dc) r).trace = [(dc, .raw "\x7b\"type\":\"end\"\x7d")] ∧
    indexed (exec (sendQuestion dc) r).trace = [] ∧
    (exec (sendQuestion dc) r).room = r := by
  have hs := sendQuestion_end dc ⟨r, []⟩ h
  simp only [exec, hs]
  exact ⟨rfl, rfl, rfl, rfl⟩

/-- Witness of C7: in `overRoom`, and in a room with an empty bank, the only message
of `sendQuestion` is the end text. -/
theorem sendQuestion_past_end_witness :
    ((overRoom.Questions.length : Int) ≤ overRoom.Current ∧
      sent (exec (sendQuestion 1) overRoom).trace = [(1, .raw "\x7b\"type\":\"end\"\x7d")]) ∧
    ((emptyRoom.Questions.length : Int) ≤ emptyRoom.Current ∧
      sent (exec (sendQuestion 1) emptyRoom).trace = [(1, .raw "\x7b\"type\":\"end\"\x7d")]) :=
  ⟨⟨by decide, (sendQuestion_past_end overRoom 1 (by decide)).2.1⟩,
   ⟨by decide, (sendQuestion_past_end emptyRoom 1 (by decide)).2.1⟩⟩

/-- C8 (question message): in a room with `0 ≤ Current < len(Questions)`, where `q`
is the question at index `Current`, `sendQuestion` returns having sent exactly one
message, the question message with the `ID`, `Text`, `Options` and `Duration` of `q`,
`progress.current = Current + 1` and `progress.total = len(Questions)`; the room is
unchanged. -/
theorem sendQuestion_in_range (r : Room) (dc : Nat) (q : Question)
    (h0 : 0 ≤ r.Current) (hlt : r.Current < (r.Questions.length : Int))
    (hq : r.Questions[r.Current.toNat]? = some q) :
    (exec (sendQuestion dc) r).isOk = true ∧
    sent (exec (sendQuestion dc) r).trace =
      [(dc, .question q.ID q.Text q.Options q.Duration (r.Current + 1)
        (r.Questions.length : Int))] ∧
    (exec (sendQuestion dc) r).room = r := by
  have _ := hlt
  have hs := sendQuestion_question dc ⟨r, []⟩ q h0 hq
  simp only [exec, hs]
  exact ⟨rfl, rfl, rfl⟩

/-- Witness of C8: in `demoRoom` the message of `sendQuestion` is the second question
with progress 2 of 3. -/
theorem sendQuestion_in_range_witness :
    (0 ≤ demoRoom.Current ∧ demoRoom.Current < (demoRoom.Questions.length : Int) ∧
      demoRoom.Questions[demoRoom.Current.toNat]? = some ⟨2, "Apa fungsi RAM?",
        ["Penyimpanan sementara", "Penyimpanan permanen", "CPU processing"], 0, 10⟩) ∧
    sent (exec (sendQuestion 1) demoRoom).trace =
      [(1, .question 2 "Apa fungsi RAM?"
        ["Penyimpanan sementara", "Penyimpanan permanen", "CPU processing"] 10 2 3)] :=
  ⟨⟨by decide, by decide, rfl⟩,
   (sendQuestion_in_range demoRoom 1 ⟨2, "Apa fungsi RAM?",
      ["Penyimpanan sementara", "Penyimpanan permanen", "CPU processing"], 0, 10⟩
      (by decide) (by decide) rfl).2.1⟩

/-- C9 (lock discipline), evaluated on the channel-open event of player `p` in
`demoRoom`: the handler writes `Current` and the score of `p` before the lock is
first taken (inside `sendQuestion`), so its trace breaks the discipline. -/
theorem onOpen_unlocked_writes :
    (exec (onOpen "p" 1) demoRoom).trace =
      [.writeCurrent 0, .writeScore "p" 0, .lock, .readCurrent, .lenQuestions, .readCurrent,
       .indexQuestions 0, .readCurrent, .lenQuestions,
       .send 1 (.question 1 "Apa kepanjangan CPU?"
         ["Central Processing Unit", "Computer Personal Unit", "Control Processing Unit"]
         10 1 3), .unlock] ∧
    accessesLocked false (exec (onOpen "p" 1) demoRoom).trace = false := by
  decide

/-- C10 (no send under the lock), evaluated on `sendQuestion` in the initial `room`:
the function takes the lock, sends the question while it holds the lock, and
releases the lock only afterwards, so its trace breaks the rule. -/
theorem sendQuestion_sends_locked :
    (exec (sendQuestion 1) room).trace =
      [.lock, .readCurrent, .lenQuestions, .readCurrent, .indexQuestions 0, .readCurrent,
       .lenQuestions,
       .send 1 (.question 1 "Apa kepanjangan CPU?"
         ["Central Processing Unit", "Computer Personal Unit", "Control Processing Unit"]
         10 1 3), .unlock] ∧
    sentUnder false (exec (sendQuestion 1) room).trace =
      [(true, 1, .question 1 "Apa kepanjangan CPU?"
         ["Central Processing Unit", "Computer Personal Unit", "Control Processing Unit"]
         10 1 3)] ∧
    sendsUnlocked false (exec (sendQuestion 1) room).trace = false := by
  decide

/-- Where the sends happen: in a room with `0 ≤ Current` and for a player `p` of the
room, `sendQuestion` and the channel-open handler each send exactly one message and
send it while the lock is held; with `Current < len(Questions)` the answer-message
handler sends exactly two messages, the result with the lock released and then the
message of `sendQuestion` with the lock held; `sendResult` sends with the lock
released; and at the end of each of them the lock is not held. -/
theorem sends_and_lock (r : Room) (p : String) (dc : Nat) (ans : AnswerPayload)
    (elapsed : Int) (pl : Player) (h0 : 0 ≤ r.Current) (hp : r.Players p = some pl) :
    ((∃ m, sentUnder false (exec (sendQuestion dc) r).trace = [(true, dc, m)]) ∧
      heldAfter false (exec (sendQuestion dc) r).trace = false) ∧
    ((∃ m, sentUnder false (exec (onOpen p dc) r).trace = [(true, dc, m)]) ∧
      heldAfter false (exec (onOpen p dc) r).trace = false) ∧
    (r.Current < (r.Questions.length : Int) →
      (∃ score m, sentUnder false (exec (onMessage p dc ans elapsed) r).trace =
        [(false, dc, .result score elapsed), (true, dc, m)]) ∧
      heldAfter false (exec (onMessage p dc ans elapsed) r).trace = false) ∧
    (∀ score, sentUnder false (exec (sendResult dc score elapsed) r).trace =
      [(false, dc, .result score elapsed)]) := by
  refine ⟨?_, ?_, ?_, fun _ => rfl⟩
  · obtain ⟨t, ht, -, hheld, hsent⟩ := sendQuestion_trace dc ⟨r, []⟩
    rcases hsent with ⟨hneg, -⟩ | ⟨-, m, hm⟩
    · exact absurd h0 (by simpa using hneg)
    · simp only [exec, ht, List.nil_append, sentUnder, heldAfter, hm, hheld]
      exact ⟨⟨m, rfl⟩, trivial⟩
  · simp only [exec]
    rw [onOpen_present p dc ⟨r, []⟩ pl hp]
    obtain ⟨t, ht, -, hheld, hsent⟩ := sendQuestion_trace dc
      ⟨⟨Function.update r.Players p (some ⟨pl.DC, 0⟩), r.Questions, 0, r.fits⟩,
       [] ++ [.writeCurrent 0, .writeScore p 0]⟩
    rcases hsent with ⟨hneg, -⟩ | ⟨-, m, hm⟩
    · exact absurd hneg (by simp)
    · rw [ht, sentUnder_append, heldAfter_append]
      simp only [List.nil_append, sentUnder, heldAfter, hm, hheld]
      exact ⟨⟨m, rfl⟩, trivial⟩
  · intro hlt
    obtain ⟨q, hq⟩ := question_at r h0 hlt
    by_cases ha : ans.Answer = q.Answer
    · simp only [exec]
      rw [onMessage_correct p dc ans elapsed ⟨r, []⟩ pl q h0 hq hp ha]
      obtain ⟨t, ht, -, hheld, hsent⟩ := sendQuestion_trace dc
        ⟨⟨Function.update r.Players p (some ⟨pl.DC, wrapInt (pl.Score + 10)⟩),
             r.Questions,
           r.Current + 1, r.fits⟩,
         [] ++ [.lock, .readCurrent, .indexQuestions r.Current, .readScore p,
           .writeScore p (wrapInt (pl.Score + 10)), .readScore p, .readCurrent,
           .writeCurrent (r.Current + 1), .unlock,
           .send dc (.result (wrapInt (pl.Score + 10)) elapsed), .sleep 500]⟩
      rcases hsent with ⟨hneg, -⟩ | ⟨-, m, hm⟩
      · exact absurd hneg (by simp; omega)
      · rw [ht, sentUnder_append, heldAfter_append]
        simp only [List.nil_append, sentUnder, heldAfter, hm, hheld]
        exact ⟨⟨_, m, rfl⟩, trivial⟩
    · simp only [exec]
      rw [onMessage_wrong p dc ans elapsed ⟨r, []⟩ pl q h0 hq hp ha]
      obtain ⟨t, ht, -, hheld, hsent⟩ := sendQuestion_trace dc
        ⟨⟨r.Players, r.Questions, r.Current + 1, r.fits⟩,
         [] ++ [.lock, .readCurrent, .indexQuestions r.Current, .readScore p,
           .readCurrent, .writeCurrent (r.Current + 1), .unlock,
           .send dc (.result pl.Score elapsed), .sleep 500]⟩
      rcases hsent with ⟨hneg, -⟩ | ⟨-, m, hm⟩
      · exact absurd hneg (by simp; omega)
      · rw [ht, sentUnder_append, heldAfter_append]
        simp only [List.nil_append, sentUnder, heldAfter, hm, hheld]
        exact ⟨⟨_, m, rfl⟩, trivial⟩

end Quiz
